import Mathlib

/-!
Verification of the decthings model child-process runtime.

The definitions below are a shallow embedding of the TypeScript sources:
the DataLoader cursor (dataloader.ts), the StateProvider chunked export,
the TrainTracker, and the RPC handler functions of the child process
(index.ts).  JavaScript numbers that may be fractional are embedded as
rationals; byte buffers are lists of bytes; JS Maps are association lists;
a thrown JS exception is an explicit error value; an async function is a
function returning an outcome value, with suspension points made explicit.
-/

deriving instance DecidableEq for Except

namespace DecthingsModel

/-- One binary segment (a JS Buffer), as its list of bytes. -/
abbrev Blob := List Nat

/-- A thrown JavaScript value: an Error with a message, or the TypeError the
runtime raises when a property of undefined is accessed. -/
inductive JsError where
  | err (msg : String)
  | typeError (msg : String)
deriving DecidableEq, Repr

/-- Events emitted to the host by sendDataEventToParent in the source. -/
inductive DataEvent where
  | requestData (requestId : Nat) (dataset : String) (startIndex : Nat) (amount : Nat)
  | shuffle (datasets : List String)
deriving DecidableEq, Repr

/-- The fields captured by one DataLoader (the private inner object of the
DataLoader class in dataloader.ts). -/
structure DataLoaderInner where
  dataset : String
  size : Nat
  totalByteSize : Nat
deriving DecidableEq, Repr

/-- The state of one DataLoader: its captured inner fields plus the private
mutable position cursor. -/
structure DataLoaderState where
  inner : DataLoaderInner
  position : Nat
deriving DecidableEq, Repr

/-- Context shared by all loaders of the process: the complete flag of the
enclosing operation, the global dataRequestIdCounter, the keys of the global
waiting map, and the data events emitted so far, in order. -/
structure ChannelCtx where
  complete : Bool
  counter : Nat
  waiting : List Nat
  events : List DataEvent
deriving DecidableEq, Repr

namespace DataLoader

/-- The remaining method: size minus position (a JS number, so an integer
that could in principle be negative). -/
def remaining (s : DataLoaderState) : Int :=
  (s.inner.size : Int) - (s.position : Int)

/-- The setPosition method: clamps the argument with Math.max(Math.floor(p), 0)
and throws when the clamped value is at least the data size. -/
def setPosition (s : DataLoaderState) (p : ℚ) : Except JsError DataLoaderState :=
  let clamped : Int := max ⌊p⌋ 0
  if (s.inner.size : Int) ≤ clamped then
    .error (.err "DataLoader setPosition: Cannot set a position which is greater than or equal to the data size.")
  else
    .ok { s with position := clamped.toNat }

/-- The value of a promise returned by next: already resolved with segments,
rejected with an exception, or suspended on the data request with the given
fresh id, for which the protocol asks the host to deliver amount segments. -/
inductive NextOutcome where
  | immediate (segs : List Blob)
  | rejected (e : JsError)
  | pending (requestId : Nat) (amount : Nat)
deriving DecidableEq, Repr

/-- The next method together with the read closure installed by
createDataLoader and the global read helper of dataloader.ts.  It computes
numToRead, returns an empty batch when numToRead is not positive, and
otherwise starts the inner read (which rejects when the enclosing operation
is complete, and otherwise registers a waiter under a fresh request id and
emits one requestData event) and then advances the cursor before the host
replies. -/
def next (ctx : ChannelCtx) (s : DataLoaderState) (amount : ℚ) :
    NextOutcome × DataLoaderState × ChannelCtx :=
  let numToRead : Int := min ⌊amount⌋ (remaining s)
  if numToRead ≤ 0 then
    (.immediate [], s, ctx)
  else if ctx.complete then
    (.rejected (.err "DataLoader next(): Cannot read data after the function was completed."),
     { s with position := s.position + numToRead.toNat }, ctx)
  else
    (.pending ctx.counter numToRead.toNat,
     { s with position := s.position + numToRead.toNat },
     { ctx with
        counter := ctx.counter + 1
        waiting := ctx.waiting ++ [ctx.counter]
        events := ctx.events ++ [.requestData ctx.counter s.inner.dataset s.position numToRead.toNat] })

end DataLoader

/-- The onDataProvided entry point: a waiting request with this id resolves
to exactly the delivered segments and is removed; an id with no waiter is
ignored.  The first component is the value the suspended promise resolves to
(none when the delivery is ignored). -/
def onDataProvided (ctx : ChannelCtx) (requestId : Nat) (data : List Blob) :
    Option (List Blob) × ChannelCtx :=
  if requestId ∈ ctx.waiting then
    (some data, { ctx with waiting := ctx.waiting.erase requestId })
  else
    (none, ctx)

/-- A loader as built by createDataLoader: the cursor starts at zero. -/
def createDataLoader (dataset : String) (size totalByteSize : Nat) : DataLoaderState :=
  { inner := { dataset := dataset, size := size, totalByteSize := totalByteSize }
    position := 0 }

/-- Run a sequence of next calls with whole-number amounts.  The first
component of the result is the total number of segments the calls resolve
to, where a suspended call counts the amount its requestData event asks for,
since the protocol has the host deliver exactly that many segments. -/
def runNexts (ctx : ChannelCtx) (s : DataLoaderState) : List Nat → Nat × DataLoaderState × ChannelCtx
  | [] => (0, s, ctx)
  | a :: rest =>
    let step := DataLoader.next ctx s (a : ℚ)
    let cnt := match step.1 with
      | .immediate segs => segs.length
      | .rejected _ => 0
      | .pending _ k => k
    let r := runNexts step.2.2 step.2.1 rest
    (cnt + r.1, r.2)

/-! Association-list embedding of the JS Maps used by the runtime
(instantiatedModels, trainingSessions). -/

/-- Map.get: the value stored under a key. -/
def mapGet {α : Type} : List (String × α) → String → Option α
  | [], _ => none
  | (k, v) :: rest, key => if k = key then some v else mapGet rest key

/-- Map.delete: removes the entry stored under a key. -/
def mapDelete {α : Type} (m : List (String × α)) (key : String) : List (String × α) :=
  m.filter (fun kv => kv.1 ≠ key)

/-- Map.set: replaces the value under an existing key, otherwise appends. -/
def mapSet {α : Type} (m : List (String × α)) (key : String) (v : α) : List (String × α) :=
  if (mapGet m key).isSome then
    m.map (fun kv => if kv.1 = key then (key, v) else kv)
  else
    m ++ [(key, v)]

/-! The TrainTracker of traintracker.ts and the training-session handlers of
index.ts. -/

/-- A callback registered with onCancel, as an opaque token. -/
abbrev Callback := Nat

/-- The TrainTracker class.  In the source the field holding the registered
cancel callbacks is declared as an array but no initializer is ever
executed for it, so at runtime it holds the JS value undefined until
something assigns it (which nothing does); we embed the field as an Option
that is none while the array is missing. -/
structure TrainTracker where
  id : String
  cancelled : Bool
  onCancelList : Option (List Callback)
  complete : Bool
deriving DecidableEq, Repr

/-- The TrainTracker constructor, as invoked by callTrain. -/
def TrainTracker.new (id : String) : TrainTracker :=
  { id := id, cancelled := false, onCancelList := none, complete := false }

/-- The onCancel method: pushes the callback onto the callback array; when
the array is the JS value undefined, reading push of it raises a TypeError. -/
def TrainTracker.onCancel (t : TrainTracker) (cb : Callback) : Except JsError TrainTracker :=
  match t.onCancelList with
  | none => .error (.typeError "Cannot read properties of undefined, reading push")
  | some l => .ok { t with onCancelList := some (l ++ [cb]) }

/-- The map of training sessions held by the runtime. -/
abbrev SessionMap := List (String × TrainTracker)

/-- The callCancelTrain handler: unknown id is a silent no-op; for a known
id the tracker is removed from the map, its cancelled flag is set, and the
callback array is iterated, which raises a TypeError while the array is the
JS value undefined.  On success the first component lists the callbacks
invoked, in order. -/
def callCancelTrain (sessions : SessionMap) (trainingSessionId : String) :
    Except JsError (List Callback × SessionMap) :=
  match mapGet sessions trainingSessionId with
  | none => .ok ([], sessions)
  | some tracker =>
    let sessions1 := mapDelete sessions trainingSessionId
    let tracker1 := { tracker with cancelled := true }
    match tracker1.onCancelList with
    | none => .error (.typeError "Cannot read properties of undefined, reading forEach")
    | some l => .ok (l, sessions1)

/-! The reply-error machinery of index.ts. -/

/-- A structured error carried in a reply body: its code and the optional
details string. -/
structure ErrBody where
  code : String
  details : Option String
deriving DecidableEq, Repr

/-- A thrown JS value as seen by getErrorFromException: an Error object with
its stack string, or any other value together with the string its
JSON.stringify or toString fallback produced (none when no string could be
produced at all). -/
inductive ThrownValue where
  | errorObj (stack : String)
  | otherVal (stringRep : Option String)
deriving DecidableEq, Repr

/-- The string representation the try chain of getErrorFromException
computes. -/
def thrownString : ThrownValue → Option String
  | .errorObj stack => some stack
  | .otherVal r => r

/-- The marker getErrorFromException appends when it truncates. -/
def shortenedMarker (elided : Nat) : String :=
  " (exception shortened - actual exception contained " ++ toString elided ++ " more characters)"

/-- getErrorFromException: builds the reply error body, truncating the
string representation at 10000 characters and appending the marker. -/
def getErrorFromException (v : ThrownValue) : ErrBody :=
  match thrownString v with
  | none => { code := "exception", details := none }
  | some s =>
    if 10000 < s.length then
      { code := "exception", details := some ((s.take 10000) ++ shortenedMarker (s.length - 10000)) }
    else
      { code := "exception", details := some s }

/-- The thrown value corresponding to one of our embedded JS exceptions: both
Error and TypeError are Error objects, whose message stands for the stack. -/
def JsError.thrown : JsError → ThrownValue
  | .err m => .errorObj m
  | .typeError m => .errorObj m

/-- processMessage: parses the command, runs the looked-up handler and, when
the command carries an id, builds the reply frame for it.  The handler
invocation is not wrapped in any try/catch, so a handler that throws (or
rejects) makes processMessage itself reject, carrying the same exception. -/
def processMessage {α : Type} (handlerOutcome : Except JsError α) (id : Option Nat) :
    Except JsError (Option (Nat × α)) :=
  match handlerOutcome with
  | .error e => .error e
  | .ok r =>
    match id with
    | none => .ok none
    | some i => .ok (some (i, r))

/-! The callTrain handler. -/

/-- A stored instantiated-model entry, as resolved by awaiting it: none when
the stored promise resolves to null (the model was disposed while still
pending), otherwise the model value. -/
abbrev ModelMap (α : Type) := List (String × Option α)

/-- The reply produced by callTrain. -/
inductive TrainReply where
  | ok
  | notFound
  | exception (body : ErrBody)
deriving DecidableEq, Repr

/-- The callTrain handler: stores a fresh tracker under the session id, then
resolves the instantiated model (unknown id, or an entry that resolves to
null, replies instantiated_model_not_found), then runs the user train
callback, whose outcome is the Except value stored in the map entry; on
every path the session entry is deleted before the handler returns. -/
def callTrain (sessions : SessionMap) (models : ModelMap (Except JsError Unit))
    (trainingSessionId instantiatedModelId : String) :
    TrainReply × SessionMap :=
  let tracker := TrainTracker.new trainingSessionId
  let sessions1 := mapSet sessions trainingSessionId tracker
  match mapGet models instantiatedModelId with
  | none => (.notFound, mapDelete sessions1 trainingSessionId)
  | some none => (.notFound, mapDelete sessions1 trainingSessionId)
  | some (some trainOutcome) =>
    match trainOutcome with
    | .error e => (.exception (getErrorFromException e.thrown), mapDelete sessions1 trainingSessionId)
    | .ok _ => (.ok, mapDelete sessions1 trainingSessionId)

/-! The interleaving of callInstantiateModel with callDisposeInstantiatedModel,
for one instantiatedModelId. -/

/-- The state relevant to one in-flight instantiation: whether the stored
entry is in the instantiatedModels map, the local disposed flag captured by
the pending dispose closure, whether the entry was published (its stored
fields swapped to the concrete model and its hook-calling dispose closure),
and how many times the dispose hook of the user model has run. -/
structure InstFlow where
  inMap : Bool
  disposed : Bool
  published : Bool
  hookRuns : Nat
deriving DecidableEq, Repr

/-- The state right after callInstantiateModel stores the pending entry in
the map, before the user instantiation callback runs. -/
def registeredPending : InstFlow :=
  { inMap := true, disposed := false, published := false, hookRuns := 0 }

/-- The events that can act on an in-flight instantiation: a
callDisposeInstantiatedModel command for its id, the successful resolution
of the user instantiation callback, or its failure. -/
inductive InstEvent where
  | disposeCmd
  | completeOk
  | completeErr
deriving DecidableEq, Repr

/-- One step of the flow, following the source: a dispose command looks the
entry up in the map (absent entry is a no-op) and calls its current dispose
closure, which for a pending entry sets the local disposed flag and deletes
the entry, and for a published entry calls the dispose hook of the model;
successful completion runs the hook when disposal was requested meanwhile,
and otherwise publishes the entry; failed completion deletes the entry. -/
def instStep (s : InstFlow) : InstEvent → InstFlow
  | .disposeCmd =>
    if s.inMap then
      if s.published then { s with hookRuns := s.hookRuns + 1 }
      else { s with disposed := true, inMap := false }
    else s
  | .completeOk =>
    if s.disposed then { s with hookRuns := s.hookRuns + 1 }
    else { s with published := true }
  | .completeErr => { s with inMap := false }

/-- Run a sequence of events on an instantiation flow. -/
def instRun (s : InstFlow) (evs : List InstEvent) : InstFlow :=
  evs.foldl instStep s

/-! The StateProvider of dataloader.ts. -/

/-- The state captured by the closure createStateProvider builds: the
complete flag of the enclosing operation and the set of keys provided so
far in the lifetime of the instance (a JS Set, embedded as its elements in
insertion order, without duplicates). -/
structure ProviderState where
  complete : Bool
  providedNames : List String
deriving DecidableEq, Repr

/-- Adding an element to the JS Set of provided names. -/
def setAdd (l : List String) (k : String) : List String :=
  if l.contains k then l else l ++ [k]

/-- One outbound provideStateData event: the command id, the keys of the
message in order, and their byte segments in the same order. -/
structure ProvideMsg where
  commandId : String
  names : List String
  blobs : List Blob
deriving DecidableEq, Repr

/-- The payload size of a group of items: the sum of their buffer lengths. -/
def chunkPayload (c : List (String × Blob)) : Nat :=
  (c.map (fun el => el.2.length)).sum

/-- The inner packing loop: starting from the running total, keep taking
items while the next buffer still fits strictly below 2 ^ 30 bytes together
with the total; returns the items taken and the items left. -/
def takeChunk (total : Nat) : List (String × Blob) → List (String × Blob) × List (String × Blob)
  | [] => ([], [])
  | y :: ys =>
    if y.2.length + total < 2 ^ 30 then
      let r := takeChunk (total + y.2.length) ys
      (y :: r.1, r.2)
    else
      ([], y :: ys)

/-- The packing loops of the provide closure as one pass over the items:
cur and total are the message being assembled and its payload so far; when
the next buffer no longer fits strictly below 2 ^ 30 bytes together with
total, the current message is flushed and a new one starts with that item. -/
def packGo (cur : List (String × Blob)) (total : Nat) :
    List (String × Blob) → List (List (String × Blob))
  | [] => [cur]
  | y :: ys =>
    if y.2.length + total < 2 ^ 30 then
      packGo (cur ++ [y]) (total + y.2.length) ys
    else
      cur :: packGo [y] y.2.length ys

/-- The outer packing loop: each message starts with the next unsent item. -/
def pack : List (String × Blob) → List (List (String × Blob))
  | [] => []
  | x :: rest => packGo [x] x.2.length rest

/-- The provide closure built by createStateProvider: rejects after the
enclosing operation completed, rejects a key already provided by an earlier
call (naming the first such key), rejects when the previously provided key
count plus the item count of this call exceeds 100, rejects a single buffer
larger than 2 ^ 30 bytes, and otherwise records the keys and emits one
provideStateData event per greedily packed message. -/
def stateProvide (ps : ProviderState) (commandId : String) (data : List (String × Blob)) :
    Except JsError (ProviderState × List ProvideMsg) :=
  if ps.complete then
    .error (.err "StateProvider: Cannot provide data after the function was completed.")
  else
    match data.find? (fun el => ps.providedNames.contains el.1) with
    | some dup =>
      .error (.err ("StateProvider: State key " ++ dup.1 ++ " was provided multiple times."))
    | none =>
      if 100 < ps.providedNames.length + data.length then
        .error (.err "StateProvider provide: Cannot provide more than 100 keys.")
      else if data.any (fun el => 2 ^ 30 < el.2.length) then
        .error (.err "StateProvider: Cannot provide more than 1 gigabyte for a single key. Split it into multiple keys.")
      else
        .ok ({ ps with providedNames := data.foldl (fun acc el => setAdd acc el.1) ps.providedNames },
             (pack data).map (fun c =>
               { commandId := commandId, names := c.map Prod.fst, blobs := c.map Prod.snd }))

/-- A provider as built for a fresh operation. -/
def freshProvider : ProviderState := { complete := false, providedNames := [] }

/-- A packing the inner loop condition of the source can produce: every
message is nonempty, and a message holding two or more items keeps its
aggregate payload strictly below 2 ^ 30 bytes. -/
def validPart (P : List (List (String × Blob))) : Prop :=
  ∀ c ∈ P, c ≠ [] ∧ (2 ≤ c.length → chunkPayload c < 2 ^ 30)

/-! The callEvaluate handler. -/

/-- One element of the array the user evaluate callback returned, with just
enough structure to express the validation the handler performs on it:
either one of the shapes the validation rejects, or a valid named list of
buffers. -/
inductive EvalElem where
  | nonObject
  | badName
  | badData (name : String)
  | nonBufferData (name : String)
  | valid (name : String) (data : List Blob)
deriving DecidableEq, Repr

/-- Whether an element passes all the per-element checks. -/
def EvalElem.isValid : EvalElem → Bool
  | .valid _ _ => true
  | _ => false

/-- The value the user evaluate callback resolved to: an array of elements,
or something that is not an array. -/
inductive EvalRet where
  | notArray
  | arr (elems : List EvalElem)
deriving DecidableEq, Repr

/-- The per-element validation loop of callEvaluate: the first invalid
element throws; a fully valid array yields its name and data pairs. -/
def validateEval : List EvalElem → Except JsError (List (String × List Blob))
  | [] => .ok []
  | .valid n d :: rest => (validateEval rest).map (fun l => (n, d) :: l)
  | .nonObject :: _ =>
    .error (.err "Evaluate: Expected each element in the return array of evaluate to be an object.")
  | .badName :: _ =>
    .error (.err "Evaluate: Expected each element in the return array of evaluate to contain a field name that is a string.")
  | .badData _ :: _ =>
    .error (.err "Evaluate: Expected each element in the return array of evaluate to contain a field data that is an array.")
  | .nonBufferData _ :: _ =>
    .error (.err "Evaluate: Expected each element in the return array of evaluate to contain a field data that is an array of buffers. Got something other than buffer.")

/-- The structured metadata of one output in the evaluate reply. -/
structure EvalOutput where
  name : String
  byteSizes : List Nat
  amount : Nat
deriving DecidableEq, Repr

/-- The reply produced by callEvaluate: on success the outputs metadata plus
the alsoSend list, whose single buffer is the trailing raw payload of the
reply frame. -/
inductive EvalReply where
  | ok (outputs : List EvalOutput) (alsoSend : List Blob)
  | notFound
  | exception (body : ErrBody)
deriving DecidableEq, Repr

/-- The callEvaluate handler: same not-found handling as callTrain, then
runs the user evaluate callback (its outcome is the Except value stored in
the map entry), validates the returned structure, and on success builds the
per-output metadata and concatenates every segment of every output, in
order, into the single trailing buffer of the reply. -/
def callEvaluate (models : ModelMap (Except JsError EvalRet)) (instantiatedModelId : String) :
    EvalReply :=
  match mapGet models instantiatedModelId with
  | none => .notFound
  | some none => .notFound
  | some (some outcome) =>
    match outcome with
    | .error e => .exception (getErrorFromException e.thrown)
    | .ok .notArray =>
      .exception (getErrorFromException
        (JsError.thrown (.err "Evaluate: Expected return value of evaluate to be an array.")))
    | .ok (.arr elems) =>
      match validateEval elems with
      | .error e => .exception (getErrorFromException e.thrown)
      | .ok outs =>
        .ok (outs.map (fun o => { name := o.1, byteSizes := o.2.map (fun b => b.length), amount := o.2.length }))
           [((outs.map Prod.snd).flatten).flatten]

/-! Helper lemmas. -/

theorem mapGet_mapDelete {α : Type} (m : List (String × α)) (k : String) :
    mapGet (mapDelete m k) k = none := by
  induction m with
  | nil => rfl
  | cons kv rest ih =>
    by_cases h : kv.1 = k
    · simpa [mapDelete, h] using ih
    · simpa [mapDelete, mapGet, h] using ih

theorem next_nonpos (ctx : ChannelCtx) (s : DataLoaderState) (n : ℚ)
    (h : min ⌊n⌋ (DataLoader.remaining s) ≤ 0) :
    DataLoader.next ctx s n = (.immediate [], s, ctx) := by
  simp only [DataLoader.next]
  rw [if_pos h]

theorem next_pending (ctx : ChannelCtx) (s : DataLoaderState) (n : ℚ)
    (hc : ctx.complete = false) (h : 0 < min ⌊n⌋ (DataLoader.remaining s)) :
    DataLoader.next ctx s n =
      (.pending ctx.counter (min ⌊n⌋ (DataLoader.remaining s)).toNat,
       { s with position := s.position + (min ⌊n⌋ (DataLoader.remaining s)).toNat },
       { ctx with
          counter := ctx.counter + 1
          waiting := ctx.waiting ++ [ctx.counter]
          events := ctx.events ++ [.requestData ctx.counter s.inner.dataset s.position
            (min ⌊n⌋ (DataLoader.remaining s)).toNat] }) := by
  simp only [DataLoader.next]
  rw [if_neg (by omega), hc]
  simp

theorem next_rejected (ctx : ChannelCtx) (s : DataLoaderState) (n : ℚ)
    (hc : ctx.complete = true) (h : 0 < min ⌊n⌋ (DataLoader.remaining s)) :
    DataLoader.next ctx s n =
      (.rejected (.err "DataLoader next(): Cannot read data after the function was completed."),
       { s with position := s.position + (min ⌊n⌋ (DataLoader.remaining s)).toNat }, ctx) := by
  simp only [DataLoader.next]
  rw [if_neg (by omega), hc]
  simp

theorem runNexts_general (amounts : List Nat) (ctx : ChannelCtx) (s : DataLoaderState)
    (hc : ctx.complete = false) (hp : s.position ≤ s.inner.size) :
    (runNexts ctx s amounts).1 = min (s.inner.size - s.position) amounts.sum ∧
    (runNexts ctx s amounts).2.1.position = s.position + (runNexts ctx s amounts).1 ∧
    (runNexts ctx s amounts).2.1.inner = s.inner := by
  induction amounts generalizing ctx s with
  | nil => simp [runNexts]
  | cons a rest ih =>
    have hfloor : ⌊((a : Nat) : ℚ)⌋ = (a : Int) := Int.floor_natCast a
    by_cases hk : min ⌊(a : ℚ)⌋ (DataLoader.remaining s) ≤ 0
    · have hstep := next_nonpos ctx s (a : ℚ) hk
      obtain ⟨h1, h2, h3⟩ := ih ctx s hc hp
      have hk2 : (a : Int) ≤ 0 ∨ (s.inner.size : Int) - s.position ≤ 0 := by
        rw [hfloor] at hk
        simp only [DataLoader.remaining] at hk
        omega
      simp only [runNexts, hstep]
      refine ⟨?_, ?_, h3⟩
      · rw [h1, List.sum_cons]
        simp only [List.length_nil]
        omega
      · rw [h2]
        simp only [List.length_nil]
        omega
    · have hpos : 0 < min ⌊(a : ℚ)⌋ (DataLoader.remaining s) := by omega
      have hstep := next_pending ctx s (a : ℚ) hc hpos
      have hka : (min ⌊(a : ℚ)⌋ (DataLoader.remaining s)).toNat
          = min a (s.inner.size - s.position) := by
        rw [hfloor]
        simp only [DataLoader.remaining]
        omega
      rw [hka] at hstep
      set s2 : DataLoaderState :=
        { s with position := s.position + min a (s.inner.size - s.position) } with hs2
      set ctx2 : ChannelCtx :=
        { ctx with
            counter := ctx.counter + 1
            waiting := ctx.waiting ++ [ctx.counter]
            events := ctx.events ++ [.requestData ctx.counter s.inner.dataset s.position
              (min a (s.inner.size - s.position))] } with hctx2
      have hs2pos : s2.position = s.position + min a (s.inner.size - s.position) := rfl
      have hs2inner : s2.inner = s.inner := rfl
      have hp2 : s2.position ≤ s2.inner.size := by
        rw [hs2pos, hs2inner]
        omega
      obtain ⟨h1, h2, h3⟩ := ih ctx2 s2 hc hp2
      rw [hs2inner, hs2pos] at h1
      rw [hs2pos] at h2
      rw [hs2inner] at h3
      simp only [runNexts, hstep]
      refine ⟨?_, ?_, h3⟩
      · rw [h1, List.sum_cons]
        have harith : Min.min a (s.inner.size - s.position)
              + Min.min (s.inner.size - (s.position + Min.min a (s.inner.size - s.position))) rest.sum
            = Min.min (s.inner.size - s.position) (a + rest.sum) := by
          omega
        exact harith
      · rw [h2, h1]
        exact Nat.add_assoc _ _ _

/-- C1: a next call with numeric amount n computes k as the minimum of the
floor of n and the remaining count; when k is not positive it resolves
immediately to the empty batch leaving all state alone; otherwise it emits
exactly one requestData event carrying the fresh request id, the dataset
id, the current position and k, registers the pending request, advances the
cursor by k before the host reply, and the later delivery for that request
id resolves the suspended call to exactly the delivered segments, in order;
and over any sequence of next calls on a loader with element count N, the
total number of segments resolved equals the minimum of N and the sum of
the requested amounts, and the final position equals that total. -/
theorem dataChannel_next_spec :
    (∀ (ctx : ChannelCtx) (s : DataLoaderState) (n : ℚ), ctx.complete = false →
      (min ⌊n⌋ (DataLoader.remaining s) ≤ 0 →
        DataLoader.next ctx s n = (.immediate [], s, ctx)) ∧
      (0 < min ⌊n⌋ (DataLoader.remaining s) →
        DataLoader.next ctx s n =
          (.pending ctx.counter (min ⌊n⌋ (DataLoader.remaining s)).toNat,
           { s with position := s.position + (min ⌊n⌋ (DataLoader.remaining s)).toNat },
           { ctx with
              counter := ctx.counter + 1
              waiting := ctx.waiting ++ [ctx.counter]
              events := ctx.events ++ [.requestData ctx.counter s.inner.dataset s.position
                (min ⌊n⌋ (DataLoader.remaining s)).toNat] }) ∧
        ((∀ r ∈ ctx.waiting, r < ctx.counter) → ctx.counter ∉ ctx.waiting) ∧
        (∀ segs, (onDataProvided (DataLoader.next ctx s n).2.2 ctx.counter segs).1 = some segs))) ∧
    (∀ (amounts : List Nat) (dataset : String) (N tbs : Nat) (ctx : ChannelCtx),
      ctx.complete = false →
      (runNexts ctx (createDataLoader dataset N tbs) amounts).1 = min N amounts.sum ∧
      (runNexts ctx (createDataLoader dataset N tbs) amounts).2.1.position
        = min N amounts.sum) := by
  constructor
  · intro ctx s n hc
    refine ⟨next_nonpos ctx s n, ?_⟩
    intro hpos
    refine ⟨next_pending ctx s n hc hpos, ?_, ?_⟩
    · intro hbound hmem
      exact absurd rfl (Nat.ne_of_lt (hbound _ hmem))
    · intro segs
      rw [next_pending ctx s n hc hpos]
      simp [onDataProvided]
  · intro amounts dataset N tbs ctx hc
    obtain ⟨h1, h2, _⟩ := runNexts_general amounts ctx (createDataLoader dataset N tbs) hc
      (by simp [createDataLoader])
    constructor
    · simpa [createDataLoader] using h1
    · rw [h2]
      simpa [createDataLoader] using h1

/-- C1 witness: a concrete pending next call and a concrete call sequence. -/
theorem dataChannel_next_spec_witness :
    DataLoader.next ⟨false, 0, [], []⟩ (createDataLoader "d1" 5 100) 2
      = (.pending 0 2, { inner := { dataset := "d1", size := 5, totalByteSize := 100 },
                         position := 2 },
         ⟨false, 1, [0], [.requestData 0 "d1" 0 2]⟩) ∧
    (runNexts ⟨false, 0, [], []⟩ (createDataLoader "d1" 5 100) [2, 2, 3]).1 = 5 ∧
    (runNexts ⟨false, 0, [], []⟩ (createDataLoader "d1" 5 100) [2, 2, 3]).2.1.position = 5 := by
  refine ⟨?_, ?_, ?_⟩
  · have h := ((dataChannel_next_spec.1 ⟨false, 0, [], []⟩ (createDataLoader "d1" 5 100) 2
      rfl).2 (by decide)).1
    rw [h]
    decide
  · have h := (dataChannel_next_spec.2 [2, 2, 3] "d1" 5 100 ⟨false, 0, [], []⟩ rfl).1
    rw [h]
    decide
  · have h := (dataChannel_next_spec.2 [2, 2, 3] "d1" 5 100 ⟨false, 0, [], []⟩ rfl).2
    rw [h]
    decide

/-- C9: setPosition first clamps its numeric input to a non-negative
integer with Math.max of the floor and zero; the call fails for every
clamped value at or above the element count, and for every clamped value
below the element count it succeeds and the new value is what position
returns afterwards. -/
theorem dataLoader_setPosition_spec (s : DataLoaderState) (p : ℚ) :
    (s.inner.size ≤ (max ⌊p⌋ 0).toNat →
      DataLoader.setPosition s p = .error
        (.err "DataLoader setPosition: Cannot set a position which is greater than or equal to the data size.")) ∧
    ((max ⌊p⌋ 0).toNat < s.inner.size →
      DataLoader.setPosition s p = .ok { s with position := (max ⌊p⌋ 0).toNat }) ∧
    (∀ s2, DataLoader.setPosition s p = .ok s2 → s2.position = (max ⌊p⌋ 0).toNat) := by
  refine ⟨?_, ?_, ?_⟩
  · intro h
    simp only [DataLoader.setPosition]
    rw [if_pos (by omega)]
  · intro h
    simp only [DataLoader.setPosition]
    rw [if_neg (by omega)]
  · intro s2 h
    simp only [DataLoader.setPosition] at h
    by_cases hcond : (s.inner.size : Int) ≤ max ⌊p⌋ 0
    · rw [if_pos hcond] at h
      exact absurd h (by simp)
    · rw [if_neg hcond] at h
      cases h
      rfl

/-- C9 witness: a negative input clamps to zero and succeeds on a loader of
size five; the input seven is rejected there. -/
theorem dataLoader_setPosition_spec_witness :
    DataLoader.setPosition (createDataLoader "d1" 5 100) (-2)
      = .ok { inner := { dataset := "d1", size := 5, totalByteSize := 100 }, position := 0 } ∧
    DataLoader.setPosition (createDataLoader "d1" 5 100) 7
      = .error (.err "DataLoader setPosition: Cannot set a position which is greater than or equal to the data size.") := by
  constructor
  · have h := (dataLoader_setPosition_spec (createDataLoader "d1" 5 100) (-2)).2.1 (by decide)
    rw [h]
    decide
  · exact (dataLoader_setPosition_spec (createDataLoader "d1" 5 100) 7).1 (by decide)

/-- C10: a next call with positive effective amount made after the
enclosing operation completed returns a rejected promise carrying the
operation-closed error, yet the cursor still advances by k, so position
afterwards is the old position plus k rather than the old position. -/
theorem dataLoader_next_not_atomic (ctx : ChannelCtx) (s : DataLoaderState) (n : ℚ)
    (hc : ctx.complete = true) (hrem : 1 ≤ DataLoader.remaining s) (hn : 1 ≤ ⌊n⌋) :
    DataLoader.next ctx s n =
      (.rejected (.err "DataLoader next(): Cannot read data after the function was completed."),
       { s with position := s.position + (min ⌊n⌋ (DataLoader.remaining s)).toNat }, ctx) ∧
    s.position < s.position + (min ⌊n⌋ (DataLoader.remaining s)).toNat := by
  constructor
  · exact next_rejected ctx s n hc (by omega)
  · omega

/-- C10 witness: a concrete closed-operation next call that still moves the
cursor from zero to two. -/
theorem dataLoader_next_not_atomic_witness :
    DataLoader.next ⟨true, 0, [], []⟩ (createDataLoader "d1" 5 100) 2
      = (.rejected (.err "DataLoader next(): Cannot read data after the function was completed."),
         { inner := { dataset := "d1", size := 5, totalByteSize := 100 }, position := 2 },
         ⟨true, 0, [], []⟩) := by
  have h := (dataLoader_next_not_atomic ⟨true, 0, [], []⟩ (createDataLoader "d1" 5 100) 2
    rfl (by decide) (by decide)).1
  rw [h]
  decide

/-- C2: the claim describes cancel-train as removing the tracker, setting
the cancelled flag and firing the registered callbacks in order, and the
spec and the declared field type show this is the intent; but the callback
array field of TrainTracker is never initialized, so registering a callback
via onCancel raises a TypeError, and cancelling a known session raises a
TypeError while iterating the callbacks of the removed tracker.  The unknown
id path is the silent no-op the claim states.  This theorem evaluates the
code at the failing inputs. -/
theorem cancelTrain_uninitialized_callbacks_bug :
    callCancelTrain [] "s" = .ok ([], []) ∧
    callCancelTrain [("s", TrainTracker.new "s")] "s"
      = .error (.typeError "Cannot read properties of undefined, reading forEach") ∧
    (TrainTracker.new "s").onCancel 0
      = .error (.typeError "Cannot read properties of undefined, reading push") := by
  refine ⟨rfl, ?_, rfl⟩
  decide

/-- C7: callTrain replies instantiated_model_not_found when the
instantiated model id is unknown or its stored entry resolves to null
because it was disposed while pending, and on every path (not found, user
success, user failure mapped to an exception body) the training session
entry is absent from the session map when the handler returns. -/
theorem callTrain_notFound_and_cleanup (sessions : SessionMap)
    (models : ModelMap (Except JsError Unit)) (tsid mid : String) :
    mapGet (callTrain sessions models tsid mid).2 tsid = none ∧
    ((mapGet models mid = none ∨ mapGet models mid = some none) →
      (callTrain sessions models tsid mid).1 = .notFound) ∧
    (∀ e, mapGet models mid = some (some (.error e)) →
      (callTrain sessions models tsid mid).1 = .exception (getErrorFromException e.thrown)) ∧
    (mapGet models mid = some (some (.ok ())) →
      (callTrain sessions models tsid mid).1 = .ok) := by
  refine ⟨?_, ?_, ?_, ?_⟩
  · simp only [callTrain]
    rcases h : mapGet models mid with _ | ⟨_ | o⟩
    · exact mapGet_mapDelete _ _
    · exact mapGet_mapDelete _ _
    · rcases o with e | u
      · exact mapGet_mapDelete _ _
      · exact mapGet_mapDelete _ _
  · intro h
    rcases h with h | h <;> simp [callTrain, h]
  · intro e h
    simp [callTrain, h]
  · intro h
    simp [callTrain, h]

/-- C7 witness: an unknown model id replies not found; a model disposed
while pending replies not found; a successful train leaves no session
entry. -/
theorem callTrain_notFound_and_cleanup_witness :
    (callTrain [] [] "t1" "x").1 = .notFound ∧
    (callTrain [] [("x", none)] "t1" "x").1 = .notFound ∧
    mapGet (callTrain [] [("x", some (.ok ()))] "t1" "x").2 "t1" = none := by
  refine ⟨?_, ?_, ?_⟩
  · exact (callTrain_notFound_and_cleanup [] [] "t1" "x").2.1 (Or.inl (by decide))
  · exact (callTrain_notFound_and_cleanup [] [("x", none)] "t1" "x").2.1 (Or.inr (by decide))
  · exact (callTrain_notFound_and_cleanup [] [("x", some (.ok ()))] "t1" "x").1

/-- C3 counterexample: the dispatcher does not catch handler exceptions.
The callCancelTrain handler raises a TypeError for this concrete command
(a known session id), and processMessage propagates that exception as its
own rejection instead of converting it into a reply body with an exception
error. -/
theorem dispatcher_does_not_catch_cex :
    processMessage (callCancelTrain [("s", TrainTracker.new "s")] "s") (some 1)
      = .error (.typeError "Cannot read properties of undefined, reading forEach") := by
  decide

/-- C3 amended: exceptions raised by the user callback inside a command
handler are caught by that handler and converted into a reply body whose
code is exception and whose details is the string representation of the
failure (the stack of an Error value, the best-effort string otherwise),
truncated to 10000 characters with the marker naming the elided count
appended whenever truncation occurred; the dispatcher itself wraps no
try/catch around handlers, so an exception escaping a handler propagates
out of processMessage unconverted. -/
theorem handler_exception_conversion_spec :
    (∀ (v : ThrownValue) (s : String), thrownString v = some s → s.length ≤ 10000 →
      getErrorFromException v = { code := "exception", details := some s }) ∧
    (∀ (v : ThrownValue) (s : String), thrownString v = some s → 10000 < s.length →
      getErrorFromException v =
        { code := "exception",
          details := some (s.take 10000 ++ shortenedMarker (s.length - 10000)) }) ∧
    (∀ v : ThrownValue, thrownString v = none →
      getErrorFromException v = { code := "exception", details := none }) ∧
    (∀ (sessions : SessionMap) (models : ModelMap (Except JsError Unit))
        (tsid mid : String) (e : JsError),
      mapGet models mid = some (some (.error e)) →
      (callTrain sessions models tsid mid).1 = .exception (getErrorFromException e.thrown)) ∧
    (∀ (e : JsError) (id : Option Nat), @processMessage Unit (.error e) id = .error e) := by
  refine ⟨?_, ?_, ?_, ?_, ?_⟩
  · intro v s hv hs
    simp [getErrorFromException, hv]
    omega
  · intro v s hv hs
    simp [getErrorFromException, hv, hs]
  · intro v hv
    simp [getErrorFromException, hv]
  · intro sessions models tsid mid e h
    simp [callTrain, h]
  · intro e id
    rfl

/-- C3 witness: a short stack is carried whole; a 10002-character stack is
truncated with the marker; a handler failure surfaces as an exception reply
body from callTrain; a handler rejection passes through processMessage. -/
theorem handler_exception_conversion_spec_witness :
    getErrorFromException (.errorObj "boom") = { code := "exception", details := some "boom" } ∧
    getErrorFromException (.errorObj (String.mk (List.replicate 10002 'a')))
      = { code := "exception",
          details := some ((String.mk (List.replicate 10002 'a')).take 10000
            ++ shortenedMarker ((String.mk (List.replicate 10002 'a')).length - 10000)) } ∧
    (callTrain [] [("x", some (.error (.err "boom")))] "t" "x").1
      = .exception { code := "exception", details := some "boom" } ∧
    @processMessage Unit (.error (.err "boom")) (some 1) = .error (.err "boom") := by
  refine ⟨?_, ?_, ?_, ?_⟩
  · exact handler_exception_conversion_spec.1 (.errorObj "boom") "boom" rfl (by decide)
  · exact handler_exception_conversion_spec.2.1 (.errorObj (String.mk (List.replicate 10002 'a')))
      (String.mk (List.replicate 10002 'a')) rfl
      (by rw [show (String.mk (List.replicate 10002 'a')).length = 10002 from by
            rw [String.length, List.length_replicate]]; omega)
  · have h := handler_exception_conversion_spec.2.2.2.1 [] [("x", some (.error (.err "boom"))) ]
      "t" "x" (.err "boom") (by decide)
    rw [h]
    decide
  · exact handler_exception_conversion_spec.2.2.2.2 (.err "boom") (some 1)

/-- A dispose step is a no-op once the entry is out of the map. -/
theorem instRun_dispose_noop (s : InstFlow) (hs : s.inMap = false) (evs : List InstEvent)
    (hall : ∀ e ∈ evs, e = .disposeCmd) : instRun s evs = s := by
  induction evs with
  | nil => rfl
  | cons e rest ih =>
    have he := hall e (by simp)
    subst he
    have hstep : instStep s .disposeCmd = s := by
      simp [instStep, hs]
    simp only [instRun, List.foldl_cons, hstep]
    exact ih (fun e he2 => hall e (by simp [he2]))

/-- Running only dispose commands from the registered pending state. -/
theorem instRun_all_dispose (evs : List InstEvent) (hall : ∀ e ∈ evs, e = .disposeCmd) :
    instRun registeredPending evs
      = if evs = [] then registeredPending
        else { inMap := false, disposed := true, published := false, hookRuns := 0 } := by
  cases evs with
  | nil => rfl
  | cons e rest =>
    have he := hall e (by simp)
    subst he
    have hstep : instStep registeredPending .disposeCmd
        = { inMap := false, disposed := true, published := false, hookRuns := 0 } := by
      simp [instStep, registeredPending]
    simp only [instRun, List.foldl_cons, hstep]
    rw [show (List.foldl instStep
        { inMap := false, disposed := true, published := false, hookRuns := 0 } rest)
      = instRun { inMap := false, disposed := true, published := false, hookRuns := 0 } rest from rfl]
    rw [instRun_dispose_noop _ rfl rest (fun e he2 => hall e (by simp [he2]))]
    simp

/-- C4: the handle is registered in the map in pending state before the
user callback runs; when dispose commands arrive while the instantiation is
still pending and the callback then resolves successfully, the dispose hook
has run zero times at every point before completion, runs exactly once in
the completion step itself, and afterwards (even under further dispose
commands) the hook count stays one, the handle was never published, and the
entry is absent from the map. -/
theorem instantiate_dispose_while_pending (pre post : List InstEvent)
    (hpre : ∀ e ∈ pre, e = .disposeCmd) (hpost : ∀ e ∈ post, e = .disposeCmd)
    (hne : pre ≠ []) :
    registeredPending.inMap = true ∧
    (∀ k, (instRun registeredPending (pre.take k)).hookRuns = 0) ∧
    instRun registeredPending (pre ++ [.completeOk])
      = { inMap := false, disposed := true, published := false, hookRuns := 1 } ∧
    instRun registeredPending (pre ++ [.completeOk] ++ post)
      = { inMap := false, disposed := true, published := false, hookRuns := 1 } := by
  have hpre2 : instRun registeredPending pre
      = { inMap := false, disposed := true, published := false, hookRuns := 0 } := by
    rw [instRun_all_dispose pre hpre]
    simp [hne]
  have hmid : instRun registeredPending (pre ++ [.completeOk])
      = { inMap := false, disposed := true, published := false, hookRuns := 1 } := by
    rw [show instRun registeredPending (pre ++ [.completeOk])
        = instRun (instRun registeredPending pre) [.completeOk] from List.foldl_append ..]
    rw [hpre2]
    rfl
  refine ⟨rfl, ?_, hmid, ?_⟩
  · intro k
    rw [instRun_all_dispose (pre.take k) (fun e he => hpre e (List.take_subset k pre he))]
    split <;> rfl
  · rw [show instRun registeredPending (pre ++ [.completeOk] ++ post)
        = instRun (instRun registeredPending (pre ++ [.completeOk])) post from List.foldl_append ..]
    rw [hmid]
    exact instRun_dispose_noop _ rfl post hpost

/-- C4 witness: one dispose while pending, then successful completion. -/
theorem instantiate_dispose_while_pending_witness :
    instRun registeredPending [.disposeCmd, .completeOk]
      = { inMap := false, disposed := true, published := false, hookRuns := 1 } ∧
    (instRun registeredPending [.disposeCmd]).hookRuns = 0 := by
  have h := instantiate_dispose_while_pending [.disposeCmd] [] (by decide) (by decide) (by decide)
  constructor
  · exact h.2.2.1
  · exact h.2.1 1

/-- Validation accepts a fully valid array and yields its pairs in order. -/
theorem validateEval_all_valid (outs : List (String × List Blob)) :
    validateEval (outs.map (fun o => .valid o.1 o.2)) = .ok outs := by
  induction outs with
  | nil => rfl
  | cons o rest ih => simp [validateEval, ih, Except.map]

/-- Validation rejects any array containing an invalid element. -/
theorem validateEval_invalid (elems : List EvalElem)
    (h : elems.all EvalElem.isValid = false) :
    ∃ e, validateEval elems = .error e := by
  induction elems with
  | nil => simp at h
  | cons el rest ih =>
    cases el with
    | valid n d =>
      simp only [List.all_cons, EvalElem.isValid, Bool.true_and] at h
      obtain ⟨e, he⟩ := ih h
      exact ⟨e, by simp [validateEval, he, Except.map]⟩
    | nonObject => exact ⟨_, rfl⟩
    | badName => exact ⟨_, rfl⟩
    | badData nm => exact ⟨_, rfl⟩
    | nonBufferData nm => exact ⟨_, rfl⟩

/-- C6: when the user evaluate callback returns a structure that violates
the validation (not an array, or any element that is not an object with a
string name and an array of buffers), the reply carries an exception error;
when it returns valid outputs, the reply metadata lists, per output, its
name and the byte size of each of its segments, and the single trailing
buffer of the reply is the concatenation of all segments of all outputs in
order. -/
theorem callEvaluate_spec (models : ModelMap (Except JsError EvalRet)) (mid : String)
    (outs : List (String × List Blob)) (elems : List EvalElem) :
    (mapGet models mid = some (some (.ok (.arr elems))) →
      elems.all EvalElem.isValid = false →
      ∃ body, callEvaluate models mid = .exception body) ∧
    (mapGet models mid = some (some (.ok .notArray)) →
      ∃ body, callEvaluate models mid = .exception body) ∧
    (mapGet models mid = some (some (.ok (.arr (outs.map (fun o => .valid o.1 o.2))))) →
      callEvaluate models mid
        = .ok (outs.map (fun o =>
              { name := o.1, byteSizes := o.2.map (fun b => b.length), amount := o.2.length }))
            [((outs.map Prod.snd).flatten).flatten]) := by
  refine ⟨?_, ?_, ?_⟩
  · intro hmap hbad
    obtain ⟨e, he⟩ := validateEval_invalid elems hbad
    refine ⟨getErrorFromException e.thrown, ?_⟩
    simp [callEvaluate, hmap, he]
  · intro hmap
    refine ⟨getErrorFromException (JsError.thrown
      (.err "Evaluate: Expected return value of evaluate to be an array.")), ?_⟩
    simp [callEvaluate, hmap]
  · intro hmap
    simp [callEvaluate, hmap, validateEval_all_valid]

/-- C6 witness: one output named out with segments of three and five bytes
produces metadata with byte sizes three and five and an eight-byte trailing
payload equal to the two segments concatenated. -/
theorem callEvaluate_spec_witness :
    callEvaluate [("x", some (.ok (.arr [.valid "out" [[1, 2, 3], [4, 5, 6, 7, 8]]])))] "x"
      = .ok [{ name := "out", byteSizes := [3, 5], amount := 2 }]
          [[1, 2, 3, 4, 5, 6, 7, 8]] := by
  have h := (callEvaluate_spec [("x", some (.ok (.arr [.valid "out" [[1, 2, 3], [4, 5, 6, 7, 8]]])))]
    "x" [("out", [[1, 2, 3], [4, 5, 6, 7, 8]])] []).2.2 (by decide)
  rw [h]
  decide

/-- C5 counterexample: a single provideAll call that repeats a key is not
rejected: the duplicate check only consults keys recorded by earlier calls,
so the call succeeds and the outbound message carries the same key twice,
although the claim says no key may be provided twice within the lifetime of
one provider instance. -/
theorem provider_duplicate_within_call_cex :
    stateProvide freshProvider "cmd" [("k", [0]), ("k", [1])]
      = .ok ({ complete := false, providedNames := ["k"] },
             [{ commandId := "cmd", names := ["k", "k"], blobs := [[0], [1]] }]) := by
  decide

/-- Keys stay in the provided set when more keys are added. -/
theorem foldl_setAdd_mono (data : List (String × Blob)) (init : List String) (k : String)
    (h : init.contains k = true) :
    (data.foldl (fun acc el => setAdd acc el.1) init).contains k = true := by
  induction data generalizing init with
  | nil => exact h
  | cons el rest ih =>
    refine ih (setAdd init el.1) ?_
    simp only [setAdd]
    split
    · exact h
    · simp only [List.contains_eq_any_beq] at h
      simp only [List.contains_eq_any_beq, List.any_append, Bool.or_eq_true]
      exact Or.inl h

/-- Every key of the call is in the provided set afterwards. -/
theorem foldl_setAdd_contains (data : List (String × Blob)) (init : List String) (k : String)
    (h : k ∈ data.map Prod.fst) :
    (data.foldl (fun acc el => setAdd acc el.1) init).contains k = true := by
  induction data generalizing init with
  | nil => simp at h
  | cons el rest ih =>
    simp only [List.map_cons, List.mem_cons] at h
    rcases h with h | h
    · subst h
      refine foldl_setAdd_mono rest (setAdd init el.1) el.1 ?_
      simp only [setAdd]
      split
      · assumption
      · simp
    · exact ih (setAdd init el.1) h

/-- C5 amended: a call after the operation completed fails with the
operation-closed error; a call containing a key already recorded by an
earlier call fails with the duplicate-key error naming the first such key
(the check consults only local state, so it hits before any network
traffic, but it does not see duplicates inside the same call); past those
checks, a call fails with the limit error when the recorded key count plus
the item count of the call exceeds 100, and with the too-large error when
any single buffer exceeds 2 ^ 30 bytes; otherwise the call succeeds, all
its keys are recorded, and any later call reusing one of them fails with
the duplicate-key error. -/
theorem provider_checks_spec (ps : ProviderState) (cid : String)
    (data : List (String × Blob)) :
    (ps.complete = true →
      stateProvide ps cid data
        = .error (.err "StateProvider: Cannot provide data after the function was completed.")) ∧
    (∀ dup, ps.complete = false →
      data.find? (fun el => ps.providedNames.contains el.1) = some dup →
      stateProvide ps cid data
        = .error (.err ("StateProvider: State key " ++ dup.1 ++ " was provided multiple times."))) ∧
    (ps.complete = false →
      data.find? (fun el => ps.providedNames.contains el.1) = none →
      100 < ps.providedNames.length + data.length →
      stateProvide ps cid data
        = .error (.err "StateProvider provide: Cannot provide more than 100 keys.")) ∧
    (ps.complete = false →
      data.find? (fun el => ps.providedNames.contains el.1) = none →
      ps.providedNames.length + data.length ≤ 100 →
      data.any (fun el => 2 ^ 30 < el.2.length) = true →
      stateProvide ps cid data
        = .error (.err "StateProvider: Cannot provide more than 1 gigabyte for a single key. Split it into multiple keys.")) ∧
    (ps.complete = false →
      data.find? (fun el => ps.providedNames.contains el.1) = none →
      ps.providedNames.length + data.length ≤ 100 →
      data.any (fun el => 2 ^ 30 < el.2.length) = false →
      stateProvide ps cid data
        = .ok ({ ps with providedNames :=
                   data.foldl (fun acc el => setAdd acc el.1) ps.providedNames },
               (pack data).map (fun c =>
                 { commandId := cid, names := c.map Prod.fst, blobs := c.map Prod.snd }))) ∧
    (∀ ps2 msgs, stateProvide ps cid data = .ok (ps2, msgs) →
      ∀ k ∈ data.map Prod.fst, ∀ (b : Blob) (rest2 : List (String × Blob)),
        ps2.providedNames.contains k = true ∧
        stateProvide ps2 cid ((k, b) :: rest2)
          = .error (.err ("StateProvider: State key " ++ k ++ " was provided multiple times."))) := by
  refine ⟨?_, ?_, ?_, ?_, ?_, ?_⟩
  · intro h
    rw [stateProvide, if_pos h]
  · intro dup hc hdup
    rw [stateProvide, if_neg (by simp [hc]), hdup]
  · intro hc hdup hlim
    rw [stateProvide, if_neg (by simp [hc]), hdup]
    rw [if_pos hlim]
  · intro hc hdup hlim hbig
    rw [stateProvide, if_neg (by simp [hc]), hdup]
    rw [if_neg (by omega), if_pos hbig]
  · intro hc hdup hlim hbig
    rw [stateProvide, if_neg (by simp [hc]), hdup]
    rw [if_neg (by omega), if_neg (by rw [hbig]; decide)]
  · intro ps2 msgs hok k hk b rest2
    have hps2 : ps2.providedNames
        = data.foldl (fun acc el => setAdd acc el.1) ps.providedNames ∧ ps2.complete = false := by
      rw [stateProvide] at hok
      by_cases hc : ps.complete
      · rw [if_pos hc] at hok
        exact absurd hok (by simp)
      · rw [if_neg hc] at hok
        rcases hfind : data.find? (fun el => ps.providedNames.contains el.1) with _ | dup
        · rw [hfind] at hok
          by_cases hlim : 100 < ps.providedNames.length + data.length
          · rw [if_pos hlim] at hok
            exact absurd hok (by simp)
          · rw [if_neg hlim] at hok
            by_cases hbig : data.any (fun el => 2 ^ 30 < el.2.length) = true
            · rw [if_pos hbig] at hok
              exact absurd hok (by simp)
            · rw [if_neg hbig] at hok
              have := hok
              simp only [Except.ok.injEq, Prod.mk.injEq] at this
              obtain ⟨h1, h2⟩ := this
              constructor
              · rw [← h1]
              · rw [← h1]
                simpa using hc
        · rw [hfind] at hok
          exact absurd hok (by simp)
    obtain ⟨hnames, hcomp⟩ := hps2
    have hcont : ps2.providedNames.contains k = true := by
      rw [hnames]
      exact foldl_setAdd_contains data ps.providedNames k hk
    refine ⟨hcont, ?_⟩
    have hfind : ((k, b) :: rest2).find? (fun el => ps2.providedNames.contains el.1)
        = some (k, b) := List.find?_cons_of_pos rest2 hcont
    rw [stateProvide, if_neg (by simp [hcomp]), hfind]

/-- C5 witness: the closed, duplicate-across-calls, limit, too-large and
success paths at concrete inputs, and the recorded key failing on reuse. -/
theorem provider_checks_spec_witness :
    stateProvide { complete := true, providedNames := [] } "c" [("a", [0])]
      = .error (.err "StateProvider: Cannot provide data after the function was completed.") ∧
    stateProvide { complete := false, providedNames := ["k"] } "c" [("k", [0])]
      = .error (.err "StateProvider: State key k was provided multiple times.") ∧
    stateProvide freshProvider "c" (List.replicate 101 ("k", ([] : Blob)))
      = .error (.err "StateProvider provide: Cannot provide more than 100 keys.") ∧
    stateProvide freshProvider "c" [("k", List.replicate (2 ^ 30 + 1) 0)]
      = .error (.err "StateProvider: Cannot provide more than 1 gigabyte for a single key. Split it into multiple keys.") ∧
    stateProvide freshProvider "c" [("a", [0]), ("b", [1])]
      = .ok ({ complete := false, providedNames := ["a", "b"] },
             [{ commandId := "c", names := ["a", "b"], blobs := [[0], [1]] }]) := by
  refine ⟨?_, ?_, ?_, ?_, ?_⟩
  · exact (provider_checks_spec { complete := true, providedNames := [] } "c" [("a", [0])]).1 rfl
  · have h := (provider_checks_spec { complete := false, providedNames := ["k"] } "c"
      [("k", [0])]).2.1 ("k", [0]) rfl (by decide)
    rw [h]
    decide
  · have h := (provider_checks_spec freshProvider "c"
      (List.replicate 101 ("k", ([] : Blob)))).2.2.1 rfl (by decide) (by decide)
    rw [h]
  · have hany : ∀ b : Blob, b.length = 2 ^ 30 + 1 →
        ([("k", b)].any (fun el => 2 ^ 30 < el.2.length)) = true := by
      intro b hb
      simp [hb]
    have hfind : ∀ b : Blob,
        ([("k", b)].find? (fun el => freshProvider.providedNames.contains el.1)) = none := by
      intro b
      rfl
    have hlen : ∀ b : Blob, freshProvider.providedNames.length + [("k", b)].length ≤ 100 := by
      intro b
      simp [freshProvider]
    have h := (provider_checks_spec freshProvider "c"
      [("k", List.replicate (2 ^ 30 + 1) 0)]).2.2.2.1 rfl (hfind _) (hlen _)
      (hany _ (by rw [List.length_replicate]))
    rw [h]
  · have h := (provider_checks_spec freshProvider "c" [("a", [0]), ("b", [1])]).2.2.2.2.1
      rfl (by decide) (by decide) (by decide)
    rw [h]
    decide

/-! Packing lemmas for the provide closure. -/

theorem chunkPayload_nil : chunkPayload [] = 0 := rfl

theorem chunkPayload_cons (x : String × Blob) (l : List (String × Blob)) :
    chunkPayload (x :: l) = x.2.length + chunkPayload l := by
  simp [chunkPayload]

theorem chunkPayload_append (a b : List (String × Blob)) :
    chunkPayload (a ++ b) = chunkPayload a + chunkPayload b := by
  simp [chunkPayload]

theorem takeChunk_append_eq (total : Nat) (l : List (String × Blob)) :
    (takeChunk total l).1 ++ (takeChunk total l).2 = l := by
  induction l generalizing total with
  | nil => rfl
  | cons y ys ih =>
    simp only [takeChunk]
    split
    · simpa using ih (total + y.2.length)
    · rfl

theorem takeChunk_snd_length (total : Nat) (l : List (String × Blob)) :
    (takeChunk total l).2.length ≤ l.length := by
  conv_rhs => rw [← takeChunk_append_eq total l]
  simp

theorem takeChunk_snd_eq_drop (total : Nat) (l : List (String × Blob)) :
    (takeChunk total l).2 = l.drop (takeChunk total l).1.length := by
  conv_lhs => rw [show (takeChunk total l).2
    = ((takeChunk total l).1 ++ (takeChunk total l).2).drop (takeChunk total l).1.length by simp]
  rw [takeChunk_append_eq]

theorem takeChunk_payload (total : Nat) (l : List (String × Blob)) :
    (takeChunk total l).1 = [] ∨ total + chunkPayload (takeChunk total l).1 < 2 ^ 30 := by
  induction l generalizing total with
  | nil => exact Or.inl rfl
  | cons y ys ih =>
    simp only [takeChunk]
    split
    · rename_i hfit
      right
      rcases ih (total + y.2.length) with h0 | h0
      · rw [h0, chunkPayload_cons, chunkPayload_nil]
        omega
      · rw [chunkPayload_cons]
        omega
    · exact Or.inl rfl

theorem takeChunk_ge (total : Nat) (p q : List (String × Blob))
    (h : total + chunkPayload p < 2 ^ 30) :
    p.length ≤ (takeChunk total (p ++ q)).1.length := by
  induction p generalizing total with
  | nil => simp
  | cons z p' ih =>
    rw [chunkPayload_cons] at h
    simp only [List.cons_append, takeChunk]
    rw [if_pos (by omega)]
    simpa using ih (total + z.2.length) (by omega)

theorem packGo_eq (cur : List (String × Blob)) (total : Nat) (l : List (String × Blob)) :
    packGo cur total l = (cur ++ (takeChunk total l).1) :: pack (takeChunk total l).2 := by
  induction l generalizing cur total with
  | nil => simp [packGo, takeChunk, pack]
  | cons y ys ih =>
    simp only [packGo, takeChunk]
    split
    · rw [ih]
      simp
    · simp only [List.append_nil]
      rw [show pack (y :: ys) = packGo [y] y.2.length ys from rfl]

theorem pack_cons (x : String × Blob) (rest : List (String × Blob)) :
    pack (x :: rest)
      = (x :: (takeChunk x.2.length rest).1) :: pack (takeChunk x.2.length rest).2 := by
  rw [show pack (x :: rest) = packGo [x] x.2.length rest from rfl, packGo_eq]
  simp

theorem pack_flatten_aux (n : Nat) : ∀ (data : List (String × Blob)), data.length ≤ n →
    (pack data).flatten = data := by
  induction n with
  | zero =>
    intro data hlen
    rw [List.length_eq_zero.mp (Nat.le_zero.mp hlen)]
    rfl
  | succ n ih =>
    intro data hlen
    cases data with
    | nil => rfl
    | cons x rest =>
      rw [pack_cons]
      simp only [List.flatten_cons]
      rw [ih _ (by
        have := takeChunk_snd_length x.2.length rest
        simp only [List.length_cons] at hlen
        omega)]
      rw [List.cons_append, takeChunk_append_eq]

theorem pack_flatten (data : List (String × Blob)) : (pack data).flatten = data :=
  pack_flatten_aux data.length data le_rfl

theorem pack_chunks_aux (n : Nat) : ∀ (data : List (String × Blob)), data.length ≤ n →
    ∀ c ∈ pack data, c ≠ [] ∧ (2 ≤ c.length → chunkPayload c < 2 ^ 30) := by
  induction n with
  | zero =>
    intro data hlen c hc
    rw [List.length_eq_zero.mp (Nat.le_zero.mp hlen)] at hc
    simp [pack] at hc
  | succ n ih =>
    intro data hlen c hc
    cases data with
    | nil => simp [pack] at hc
    | cons x rest =>
      rw [pack_cons] at hc
      simp only [List.mem_cons] at hc
      rcases hc with hc | hc
      · subst hc
        refine ⟨by simp, ?_⟩
        intro hlen2
        rcases takeChunk_payload x.2.length rest with h0 | h0
        · rw [h0] at hlen2
          simp at hlen2
        · rw [chunkPayload_cons]
          omega
      · exact ih _ (by
          have := takeChunk_snd_length x.2.length rest
          simp only [List.length_cons] at hlen
          omega) c hc

theorem pack_chunks (data : List (String × Blob)) :
    ∀ c ∈ pack data, c ≠ [] ∧ (2 ≤ c.length → chunkPayload c < 2 ^ 30) :=
  pack_chunks_aux data.length data le_rfl

theorem pack_payload_le_aux (n : Nat) : ∀ (data : List (String × Blob)), data.length ≤ n →
    (∀ el ∈ data, el.2.length ≤ 2 ^ 30) →
    ∀ c ∈ pack data, chunkPayload c ≤ 2 ^ 30 := by
  induction n with
  | zero =>
    intro data hlen hel c hc
    rw [List.length_eq_zero.mp (Nat.le_zero.mp hlen)] at hc
    simp [pack] at hc
  | succ n ih =>
    intro data hlen hel c hc
    cases data with
    | nil => simp [pack] at hc
    | cons x rest =>
      rw [pack_cons] at hc
      simp only [List.mem_cons] at hc
      rcases hc with hc | hc
      · subst hc
        rcases takeChunk_payload x.2.length rest with h0 | h0
        · rw [h0, chunkPayload_cons, chunkPayload_nil]
          have := hel x (by simp)
          omega
        · rw [chunkPayload_cons]
          omega
      · refine ih _ (by
          have := takeChunk_snd_length x.2.length rest
          simp only [List.length_cons] at hlen
          omega) ?_ c hc
        intro el hmem
        refine hel el ?_
        have hsub : el ∈ rest := by
          rw [← takeChunk_append_eq x.2.length rest]
          exact List.mem_append_right _ hmem
        simp [hsub]

theorem pack_payload_le (data : List (String × Blob))
    (hel : ∀ el ∈ data, el.2.length ≤ 2 ^ 30) :
    ∀ c ∈ pack data, chunkPayload c ≤ 2 ^ 30 :=
  pack_payload_le_aux data.length data le_rfl hel

theorem pack_min (P : List (List (String × Blob))) : ∀ (xs : List (String × Blob)) (k : Nat),
    P.flatten = xs → validPart P → (pack (xs.drop k)).length ≤ P.length := by
  induction P with
  | nil =>
    intro xs k hjoin hvalid
    rw [← hjoin]
    simp [pack]
  | cons c P' ih =>
    intro xs k hjoin hvalid
    have hc := hvalid c (by simp)
    have hvalid' : validPart P' := fun d hd => hvalid d (by simp [hd])
    simp only [List.flatten_cons] at hjoin
    by_cases hk : c.length ≤ k
    · rw [← hjoin, List.drop_append_eq_append_drop, List.drop_eq_nil_of_le hk, List.nil_append]
      exact le_trans (ih P'.flatten (k - c.length) rfl hvalid') (by simp)
    · push_neg at hk
      have hys : xs.drop k = c.drop k ++ P'.flatten := by
        rw [← hjoin, List.drop_append_eq_append_drop,
            Nat.sub_eq_zero_of_le (le_of_lt hk), List.drop_zero]
      cases hdk : c.drop k with
      | nil =>
        exfalso
        have hlen0 := congrArg List.length hdk
        simp only [List.length_drop, List.length_nil] at hlen0
        omega
      | cons y0 p' =>
        rw [hys, hdk, List.cons_append, pack_cons]
        simp only [List.length_cons]
        have hA : p'.length ≤ (takeChunk y0.2.length (p' ++ P'.flatten)).1.length := by
          by_cases hp' : p' = []
          · subst hp'
            simp
          · have hdklen : (c.drop k).length = c.length - k := by simp
            rw [hdk] at hdklen
            simp only [List.length_cons] at hdklen
            have hplen : 1 ≤ p'.length := by
              cases p' with
              | nil => exact absurd rfl hp'
              | cons _ _ => simp
            have hclen2 : 2 ≤ c.length := by omega
            have hpay : chunkPayload c < 2 ^ 30 := hc.2 hclen2
            have hpayd : chunkPayload (c.drop k) ≤ chunkPayload c := by
              conv_rhs => rw [← List.take_append_drop k c]
              rw [chunkPayload_append]
              omega
            rw [hdk, chunkPayload_cons] at hpayd
            exact takeChunk_ge y0.2.length p' P'.flatten (by omega)
        have hrem : (takeChunk y0.2.length (p' ++ P'.flatten)).2
            = P'.flatten.drop ((takeChunk y0.2.length (p' ++ P'.flatten)).1.length - p'.length) := by
          rw [takeChunk_snd_eq_drop, List.drop_append_eq_append_drop,
              List.drop_eq_nil_of_le hA, List.nil_append]
        rw [hrem]
        have hrec := ih P'.flatten
          ((takeChunk y0.2.length (p' ++ P'.flatten)).1.length - p'.length) rfl hvalid'
        omega

/-- Inversion of a successful provide call: the operation was open, the
keys were recorded, and the messages are the greedy packing of the items. -/
theorem stateProvide_ok_inv (ps : ProviderState) (cid : String)
    (data : List (String × Blob)) (ps2 : ProviderState) (msgs : List ProvideMsg)
    (h : stateProvide ps cid data = .ok (ps2, msgs)) :
    ps.complete = false ∧
    ps2 = { ps with providedNames := data.foldl (fun acc el => setAdd acc el.1) ps.providedNames } ∧
    msgs = (pack data).map (fun c =>
      { commandId := cid, names := c.map Prod.fst, blobs := c.map Prod.snd }) := by
  rw [stateProvide] at h
  by_cases hc : ps.complete
  · rw [if_pos hc] at h
    exact absurd h (by simp)
  · rw [if_neg hc] at h
    refine ⟨by simpa using hc, ?_⟩
    rcases hfind : data.find? (fun el => ps.providedNames.contains el.1) with _ | dup
    · rw [hfind] at h
      by_cases hlim : 100 < ps.providedNames.length + data.length
      · rw [if_pos hlim] at h
        exact absurd h (by simp)
      · rw [if_neg hlim] at h
        by_cases hbig : data.any (fun el => 2 ^ 30 < el.2.length) = true
        · rw [if_pos hbig] at h
          exact absurd h (by simp)
        · rw [if_neg hbig] at h
          simp only [Except.ok.injEq, Prod.mk.injEq] at h
          exact ⟨h.1.symm, h.2.symm⟩
    · rw [hfind] at h
      exact absurd h (by simp)

/-- A one-byte item followed by an item of 2 ^ 30 - 1 bytes is split into
two messages: the inner loop only accepts a further item while the aggregate
stays strictly below 2 ^ 30. -/
theorem stateProvide_pair_split (b1 b2 : Blob) (h1 : b1.length = 1)
    (h2 : b2.length = 2 ^ 30 - 1) :
    stateProvide freshProvider "c" [("a", b1), ("b", b2)]
      = .ok ({ complete := false, providedNames := ["a", "b"] },
             [{ commandId := "c", names := ["a"], blobs := [b1] },
              { commandId := "c", names := ["b"], blobs := [b2] }]) := by
  have hpack : pack [("a", b1), ("b", b2)] = [[("a", b1)], [("b", b2)]] := by
    rw [show pack [("a", b1), ("b", b2)] = packGo [("a", b1)] b1.length [("b", b2)] from rfl]
    simp only [packGo]
    rw [if_neg (by rw [h1, h2]; omega)]
  have hany : ([("a", b1), ("b", b2)].any (fun el => 2 ^ 30 < el.2.length)) = false := by
    simp [h1, h2]
  rw [stateProvide, if_neg (by decide)]
  rw [show ([("a", b1), ("b", b2)].find?
      (fun el => freshProvider.providedNames.contains el.1)) = none from rfl]
  rw [if_neg (by simp [freshProvider]), if_neg (by rw [hany]; decide)]
  rw [hpack]
  rfl

/-- C8 counterexample: the packing is not minimal for the bound the claim
states.  On the items a (one byte) and b (2 ^ 30 - 1 bytes) the code emits
two messages, yet the single-message packing of the same items in the same
order has aggregate payload exactly 2 ^ 30, which does not exceed 2 ^ 30:
the inner loop requires the running total to stay strictly below 2 ^ 30,
not at most 2 ^ 30. -/
theorem pack_not_minimal_cex :
    (stateProvide freshProvider "c" [("a", [0]), ("b", List.replicate (2 ^ 30 - 1) 0)]).map
        (fun r => r.2.length) = .ok 2 ∧
    chunkPayload [("a", [0]), ("b", List.replicate (2 ^ 30 - 1) 0)] ≤ 2 ^ 30 ∧
    ([[("a", ([0] : Blob)), ("b", List.replicate (2 ^ 30 - 1) 0)]]
        : List (List (String × Blob))).length = 1 ∧
    ([[("a", ([0] : Blob)), ("b", List.replicate (2 ^ 30 - 1) 0)]]).flatten
      = [("a", [0]), ("b", List.replicate (2 ^ 30 - 1) 0)] := by
  have h := stateProvide_pair_split [0] (List.replicate (2 ^ 30 - 1) 0) rfl
    (by rw [List.length_replicate])
  have hpay : ∀ b : Blob, b.length = 2 ^ 30 - 1 →
      chunkPayload [("a", ([0] : Blob)), ("b", b)] ≤ 2 ^ 30 := by
    intro b hb
    rw [chunkPayload_cons, chunkPayload_cons, chunkPayload_nil, hb]
    simp
  refine ⟨?_, hpay _ (by rw [List.length_replicate]), rfl, rfl⟩
  rw [h]
  rfl

/-- C8 amended: on a successful provide call the emitted messages are the
greedy packing of the accepted items: concatenating the messages restores
the items in input order (order preserved within and across messages), no
message is empty, any message holding two or more items has aggregate
payload strictly below 2 ^ 30 bytes, no message payload exceeds 2 ^ 30
bytes (single items can reach exactly 2 ^ 30), the number of messages is
minimal among order-preserving packings whose multi-item messages stay
strictly below 2 ^ 30 bytes, and each message carries the commandId with
the ordered keys and their byte segments. -/
theorem pack_greedy_spec (data : List (String × Blob)) :
    (pack data).flatten = data ∧
    (∀ c ∈ pack data, c ≠ []) ∧
    (∀ c ∈ pack data, 2 ≤ c.length → chunkPayload c < 2 ^ 30) ∧
    ((∀ el ∈ data, el.2.length ≤ 2 ^ 30) → ∀ c ∈ pack data, chunkPayload c ≤ 2 ^ 30) ∧
    (∀ P, P.flatten = data → validPart P → (pack data).length ≤ P.length) ∧
    (∀ (ps : ProviderState) (cid : String) (ps2 : ProviderState) (msgs : List ProvideMsg),
      stateProvide ps cid data = .ok (ps2, msgs) →
      msgs = (pack data).map (fun c =>
        { commandId := cid, names := c.map Prod.fst, blobs := c.map Prod.snd })) := by
  refine ⟨pack_flatten data, ?_, ?_, pack_payload_le data, ?_, ?_⟩
  · intro c hc
    exact (pack_chunks data c hc).1
  · intro c hc
    exact (pack_chunks data c hc).2
  · intro P hjoin hvalid
    have := pack_min P data 0 hjoin hvalid
    simpa using this
  · intro ps cid ps2 msgs h
    exact (stateProvide_ok_inv ps cid data ps2 msgs h).2.2

/-- C8 witness: two one-byte items pack into a single message; the
two-message packing of the same items is valid, so minimality holds with
one at most two; a successful call emits exactly the packed message. -/
theorem pack_greedy_spec_witness :
    (pack [("a", ([0] : Blob)), ("b", [1])]).flatten = [("a", [0]), ("b", [1])] ∧
    (pack [("a", ([0] : Blob)), ("b", [1])]).length
      ≤ ([[("a", ([0] : Blob))], [("b", [1])]] : List (List (String × Blob))).length ∧
    ((stateProvide freshProvider "c" [("a", [0]), ("b", [1])]).map (fun r => r.2)
      = .ok ((pack [("a", [0]), ("b", [1])]).map (fun c =>
          { commandId := "c", names := c.map Prod.fst, blobs := c.map Prod.snd }))) := by
  have h := pack_greedy_spec [("a", ([0] : Blob)), ("b", [1])]
  refine ⟨h.1, ?_, ?_⟩
  · refine h.2.2.2.2.1 [[("a", [0])], [("b", [1])]] (by decide) ?_
    intro c hc
    simp only [List.mem_cons, List.not_mem_nil, or_false] at hc
    rcases hc with hc | hc <;> subst hc <;> exact ⟨by decide, by decide⟩
  · have hmsgs := h.2.2.2.2.2 freshProvider "c"
      { complete := false, providedNames := ["a", "b"] }
      [{ commandId := "c", names := ["a", "b"], blobs := [[0], [1]] }] (by decide)
    rw [show stateProvide freshProvider "c" [("a", [0]), ("b", [1])]
        = .ok ({ complete := false, providedNames := ["a", "b"] },
               [{ commandId := "c", names := ["a", "b"], blobs := [[0], [1]] }]) from by decide]
    rw [← hmsgs]
    rfl

end DecthingsModel
